import Mathlib

/-!
# Network byte counter query of `FlutterWindow::OnCreate`

Shallow embedding of the method-call handler registered on the `"totoro/system"` channel in
`totoro-node-desktop/windows/runner/flutter_window.cpp` (lines 39-63), together with the
properties of the `getNetworkBytes` query.

Machine integers are natural numbers with explicit reductions: `ULONG` is the 32-bit unsigned
type of the Windows ABI, `ULONG64` the 64-bit one, `int64_t` a 64-bit twos-complement integer.
The calls into the operating system and into the method-result object are recorded, in program
order, in a list of effects.
-/

namespace FlutterWindow

/-! ## Values exchanged over the method channel -/

/-- The alternatives of `flutter::EncodableValue` that the handler touches: the null value,
a 64-bit signed integer, a string, and a map from values to values. -/
inductive EncodableValue where
  | null
  | int64 (v : Int)
  | string (s : String)
  | map (entries : List (EncodableValue × EncodableValue))

mutual
/-- Equality test of two encodable values (`operator==` of the variant). -/
def EncodableValue.beq : EncodableValue → EncodableValue → Bool
  | .null, .null => true
  | .int64 a, .int64 b => a == b
  | .string a, .string b => a == b
  | .map a, .map b => EncodableValue.beqEntries a b
  | _, _ => false
/-- Entry-wise equality test of two maps. -/
def EncodableValue.beqEntries :
    List (EncodableValue × EncodableValue) → List (EncodableValue × EncodableValue) → Bool
  | [], [] => true
  | (k1, v1) :: r1, (k2, v2) :: r2 =>
    EncodableValue.beq k1 k2 && EncodableValue.beq v1 v2 && EncodableValue.beqEntries r1 r2
  | _, _ => false
end

/-- A `flutter::EncodableMap` (`std::map<EncodableValue, EncodableValue>`), kept as a list of
entries with pairwise different keys. The handler inserts `"rx"` before `"tx"`, which is also
their key order. -/
abbrev EncodableMap := List (EncodableValue × EncodableValue)

/-- The statement `m[k] = v`: overwrite the value stored under `k`, or add the entry. -/
def EncodableMap.assign : EncodableMap → EncodableValue → EncodableValue → EncodableMap
  | [], k, v => [(k, v)]
  | (k', v') :: rest, k, v =>
    if EncodableValue.beq k' k then (k', v) :: rest
    else (k', v') :: EncodableMap.assign rest k v

/-- Look-up of the value stored under a key. -/
def EncodableMap.find? : EncodableMap → EncodableValue → Option EncodableValue
  | [], _ => none
  | (k', v') :: rest, k =>
    if EncodableValue.beq k' k then some v' else EncodableMap.find? rest k

/-- A `flutter::MethodCall`: the method name and the (optional) arguments. -/
structure MethodCall where
  method_name : String
  arguments : EncodableValue

/-! ## The interface table of the IP helper API -/

/-- The value `NO_ERROR` of `GetIfTable2`. -/
def NO_ERROR : Nat := 0

/-- The value `IfOperStatusUp` of the enumeration `IF_OPER_STATUS`. -/
def IfOperStatusUp : Nat := 1

/-- The value `IF_TYPE_SOFTWARE_LOOPBACK` of `IFTYPE`. -/
def IF_TYPE_SOFTWARE_LOOPBACK : Nat := 24

/-- The fields of a `MIB_IF_ROW2` that the handler reads. `Type_` is the field `Type`;
`InOctets` and `OutOctets` are `ULONG64` counters. -/
structure MIB_IF_ROW2 where
  OperStatus : Nat
  Type_ : Nat
  InOctets : Nat
  OutOctets : Nat
  deriving DecidableEq, Repr

/-- A `MIB_IF_TABLE2`: the rows `Table[0] .. Table[NumEntries - 1]`. -/
structure MIB_IF_TABLE2 where
  Table : List MIB_IF_ROW2
  deriving DecidableEq, Repr

/-- The field `NumEntries` of the table. -/
def MIB_IF_TABLE2.NumEntries (t : MIB_IF_TABLE2) : Nat := t.Table.length

/-- What one call `GetIfTable2(&table)` leaves behind: the returned status and the value of the
pointer `table` afterwards (`none` is `nullptr`). -/
structure GetIfTable2Result where
  status : Nat
  table : Option MIB_IF_TABLE2

/-! ## Integer conversions -/

/-- The conversion `static_cast<ULONG>(x)` of an unsigned value: reduction modulo `2 ^ 32`. -/
def castULONG (x : Nat) : Nat := x % 2 ^ 32

/-- The compound assignment `acc += y` on a `ULONG` variable: addition modulo `2 ^ 32`. -/
def addULONG (acc y : Nat) : Nat := (acc + y) % 2 ^ 32

/-- The conversion `static_cast<int64_t>(x)` of an unsigned value: the 64-bit twos-complement
reading of `x`. -/
def castInt64 (x : Nat) : Int :=
  if x % 2 ^ 64 < 2 ^ 63 then ((x % 2 ^ 64 : Nat) : Int) else ((x % 2 ^ 64 : Nat) : Int) - 2 ^ 64

/-! ## Effects and the handler -/

/-- The calls the handler makes, in program order: the three IP helper operations
(`GetIfTable2`, reading `table->Table[i]`, `FreeMibTable`) and the three answers of a
`flutter::MethodResult`. -/
inductive Effect where
  | GetIfTable2
  | ReadRow (i : Nat)
  | FreeMibTable
  | Success (v : EncodableValue)
  | Error (code : String) (message : String)
  | NotImplemented

/-- The local variables `rx` and `tx` of the handler and the effects performed so far. -/
structure Locals where
  rx : Nat
  tx : Nat
  trace : List Effect

/-- The loop `for (ULONG i = 0; i < table->NumEntries; i++)` of lines 47-53, started at index
`i` on the rows that remain. -/
def scanRows : List MIB_IF_ROW2 → Nat → Locals → Locals
  | [], _, s => s
  | row :: rest, i, s =>
    let s1 : Locals := { s with trace := s.trace ++ [Effect.ReadRow i] }
    if row.OperStatus ≠ IfOperStatusUp then scanRows rest (i + 1) s1
    else if row.Type_ = IF_TYPE_SOFTWARE_LOOPBACK then scanRows rest (i + 1) s1
    else scanRows rest (i + 1)
      { s1 with rx := addULONG s1.rx (castULONG row.InOctets),
                tx := addULONG s1.tx (castULONG row.OutOctets) }

/-- Lines 43-55: the declarations of `rx`, `tx` and `table`, the call of `GetIfTable2`, and,
when it returned `NO_ERROR` and a table, the scan followed by `FreeMibTable`. -/
def collect (os : GetIfTable2Result) : Locals :=
  let s0 : Locals := { rx := 0, tx := 0, trace := [Effect.GetIfTable2] }
  if os.status = NO_ERROR then
    match os.table with
    | some t =>
      let s1 := scanRows t.Table 0 s0
      { s1 with trace := s1.trace ++ [Effect.FreeMibTable] }
    | none => s0
  else s0

/-- Lines 56-58: the map sent back, built from the final `rx` and `tx`. -/
def resultMap (rx tx : Nat) : EncodableMap :=
  EncodableMap.assign
    (EncodableMap.assign [] (EncodableValue.string "rx") (EncodableValue.int64 (castInt64 rx)))
    (EncodableValue.string "tx") (EncodableValue.int64 (castInt64 tx))

/-- The method-call handler of lines 40-63: the effects of one invocation, given the call and
what `GetIfTable2` does when it is called. -/
def methodCallHandler (call : MethodCall) (os : GetIfTable2Result) : List Effect :=
  if call.method_name = "getNetworkBytes" then
    let s := collect os
    s.trace ++ [Effect.Success (EncodableValue.map (resultMap s.rx s.tx))]
  else
    [Effect.NotImplemented]

/-- The storage of the automatic variables `rx` and `tx` as an invocation finds it: the
values that an earlier invocation left there. -/
structure Frame where
  rx : Nat
  tx : Nat
  deriving DecidableEq, Repr

/-- One invocation of the handler within a sequence of invocations. The declarations
`ULONG rx = 0;` and `ULONG tx = 0;` of lines 43-44 overwrite the storage found, then lines
45-59 run on it; for any other method name the storage is not touched. The result is the
storage left behind and the effects of this invocation. -/
def invoke (frame : Frame) (call : MethodCall) (os : GetIfTable2Result) : Frame × List Effect :=
  if call.method_name = "getNetworkBytes" then
    let f1 : Frame := { frame with rx := 0 }
    let f2 : Frame := { f1 with tx := 0 }
    let s0 : Locals := { rx := f2.rx, tx := f2.tx, trace := [Effect.GetIfTable2] }
    let s1 : Locals :=
      if os.status = NO_ERROR then
        match os.table with
        | some t =>
          let s := scanRows t.Table 0 s0
          { s with trace := s.trace ++ [Effect.FreeMibTable] }
        | none => s0
      else s0
    ({ rx := s1.rx, tx := s1.tx },
      s1.trace ++ [Effect.Success (EncodableValue.map (resultMap s1.rx s1.tx))])
  else
    (frame, [Effect.NotImplemented])

/-- A sequence of invocations on the channel, each with its call and with what `GetIfTable2`
does during it: the effects of every invocation, in order. The storage left by one invocation
is the storage the next one finds. -/
def serve : Frame → List (MethodCall × GetIfTable2Result) → List (List Effect)
  | _, [] => []
  | frame, (call, os) :: rest =>
    (invoke frame call os).2 :: serve (invoke frame call os).1 rest

/-! ## Observations on an effect list -/

/-- Recognises a call of `GetIfTable2`. -/
def Effect.isGetIfTable2 : Effect → Bool
  | .GetIfTable2 => true
  | _ => false

/-- Recognises a read of a table row. -/
def Effect.isReadRow : Effect → Bool
  | .ReadRow _ => true
  | _ => false

/-- Recognises a call of `FreeMibTable`. -/
def Effect.isFreeMibTable : Effect → Bool
  | .FreeMibTable => true
  | _ => false

/-- Recognises a `Success` answer. -/
def Effect.isSuccess : Effect → Bool
  | .Success _ => true
  | _ => false

/-- Recognises an `Error` answer. -/
def Effect.isError : Effect → Bool
  | .Error _ _ => true
  | _ => false

/-- Recognises a `NotImplemented` answer. -/
def Effect.isNotImplemented : Effect → Bool
  | .NotImplemented => true
  | _ => false

/-- Recognises any of the three answers of the method result. -/
def Effect.isReply : Effect → Bool
  | .Success _ => true
  | .Error _ _ => true
  | .NotImplemented => true
  | _ => false

/-- The answers given to the caller, in order. -/
def replies (tr : List Effect) : List Effect := tr.filter Effect.isReply

/-- The integer stored under the string key `key` of the first `Success` map of an effect
list, if there is one. -/
def replyField (key : String) : List Effect → Option Int
  | [] => none
  | Effect.Success (EncodableValue.map m) :: _ =>
    match EncodableMap.find? m (EncodableValue.string key) with
    | some (EncodableValue.int64 v) => some v
    | _ => none
  | _ :: rest => replyField key rest

/-- The `rx` value answered to a call. -/
def responseRx (call : MethodCall) (os : GetIfTable2Result) : Option Int :=
  replyField "rx" (methodCallHandler call os)

/-- The `tx` value answered to a call. -/
def responseTx (call : MethodCall) (os : GetIfTable2Result) : Option Int :=
  replyField "tx" (methodCallHandler call os)

/-! ## Vocabulary of the specification -/

/-- A qualifying interface: operationally up and not a software loopback. -/
def qualifies (row : MIB_IF_ROW2) : Bool :=
  decide (row.OperStatus = IfOperStatusUp) && !decide (row.Type_ = IF_TYPE_SOFTWARE_LOOPBACK)

/-- The exact sum of `InOctets` over the qualifying rows. -/
def exactRx (rows : List MIB_IF_ROW2) : Nat :=
  ((rows.filter qualifies).map MIB_IF_ROW2.InOctets).sum

/-- The exact sum of `OutOctets` over the qualifying rows. -/
def exactTx (rows : List MIB_IF_ROW2) : Nat :=
  ((rows.filter qualifies).map MIB_IF_ROW2.OutOctets).sum

/-- The success map `{rx: a, tx: b}`. -/
def counterMap (a b : Int) : EncodableValue :=
  EncodableValue.map
    [(EncodableValue.string "rx", EncodableValue.int64 a),
     (EncodableValue.string "tx", EncodableValue.int64 b)]

/-- A successful enumeration that returned the table `t`. -/
def enumerated (t : MIB_IF_TABLE2) : GetIfTable2Result := { status := NO_ERROR, table := some t }

/-- The same interface at a later time: status and type unchanged, counters not smaller. -/
def rowNoReset (r1 r2 : MIB_IF_ROW2) : Prop :=
  r1.OperStatus = r2.OperStatus ∧ r1.Type_ = r2.Type_ ∧
    r1.InOctets ≤ r2.InOctets ∧ r1.OutOctets ≤ r2.OutOctets

/-- Two tables of one length whose corresponding rows agree in status and type and whose
counters did not go down from the first to the second. -/
def noReset (t1 t2 : MIB_IF_TABLE2) : Prop :=
  List.Forall₂ rowNoReset t1.Table t2.Table

/-- The example table of the specification: an ethernet interface that is up, a loopback
interface that is up, an ethernet interface that is down (`IfOperStatusDown = 2`,
`IF_TYPE_ETHERNET_CSMACD = 6`). -/
def exampleTable : MIB_IF_TABLE2 :=
  { Table := [{ OperStatus := 1, Type_ := 6, InOctets := 1000, OutOctets := 500 },
              { OperStatus := 1, Type_ := 24, InOctets := 50, OutOctets := 50 },
              { OperStatus := 2, Type_ := 6, InOctets := 900, OutOctets := 900 }] }

/-- One ethernet interface that is up and has received exactly `2 ^ 32` octets and sent
`2 ^ 32 + 5`; both counters are below `2 ^ 64`. -/
def wrapTable : MIB_IF_TABLE2 :=
  { Table := [{ OperStatus := 1, Type_ := 6, InOctets := 4294967296, OutOctets := 4294967301 }] }

/-- One ethernet interface that is up, one octet short of `2 ^ 32` received octets. -/
def beforeWrapTable : MIB_IF_TABLE2 :=
  { Table := [{ OperStatus := 1, Type_ := 6, InOctets := 4294967295, OutOctets := 7 }] }

/-- The interface of `beforeWrapTable` after one more received octet. -/
def afterWrapTable : MIB_IF_TABLE2 :=
  { Table := [{ OperStatus := 1, Type_ := 6, InOctets := 4294967296, OutOctets := 7 }] }

/-- An ethernet interface that is down and a loopback interface that is up. -/
def idleTable : MIB_IF_TABLE2 :=
  { Table := [{ OperStatus := 2, Type_ := 6, InOctets := 900, OutOctets := 900 },
              { OperStatus := 1, Type_ := 24, InOctets := 50, OutOctets := 50 }] }

/-- The interface of `wrapTable` at a later time: ten more octets received, four more sent.
Both tables have their sums between `2 ^ 32` and `2 ^ 33`. -/
def wrapTableLater : MIB_IF_TABLE2 :=
  { Table := [{ OperStatus := 1, Type_ := 6, InOctets := 4294967306, OutOctets := 4294967305 }] }

/-- Two ethernet interfaces that are up, with received counters `2 ^ 32 + 1` each and sent
counters `2 ^ 31` and `2 ^ 31 - 1`, and a loopback interface between them. -/
def twoWrapTable : MIB_IF_TABLE2 :=
  { Table := [{ OperStatus := 1, Type_ := 6, InOctets := 4294967297, OutOctets := 2147483648 },
              { OperStatus := 1, Type_ := 24, InOctets := 11, OutOctets := 13 },
              { OperStatus := 1, Type_ := 6, InOctets := 4294967297, OutOctets := 2147483647 }] }

/-- A call of `getNetworkBytes` without arguments. -/
def getNetworkBytesCall : MethodCall :=
  { method_name := "getNetworkBytes", arguments := EncodableValue.null }

/-! ## Lemmas on the scan -/

theorem scanRows_rx (rows : List MIB_IF_ROW2) (i : Nat) (s : Locals) (h : s.rx < 2 ^ 32) :
    (scanRows rows i s).rx = (s.rx + exactRx rows) % 2 ^ 32 := by
  induction rows generalizing i s with
  | nil =>
    simp only [scanRows, exactRx, List.filter_nil, List.map_nil, List.sum_nil, Nat.add_zero]
    exact (Nat.mod_eq_of_lt h).symm
  | cons row rest ih =>
    unfold scanRows
    by_cases hup : row.OperStatus = IfOperStatusUp
    · by_cases hlo : row.Type_ = IF_TYPE_SOFTWARE_LOOPBACK
      · have hq : qualifies row = false := by simp [qualifies, hlo]
        simp only [hup, hlo, ne_eq, not_true_eq_false, if_false, if_true]
        rw [ih (i + 1) ⟨s.rx, s.tx, s.trace ++ [Effect.ReadRow i]⟩ h]
        simp [exactRx, List.filter_cons, hq]
      · have hq : qualifies row = true := by simp [qualifies, hup, hlo]
        simp only [hup, hlo, ne_eq, not_true_eq_false, if_false]
        rw [ih _ _ (Nat.mod_lt _ (by norm_num))]
        simp only [addULONG, castULONG, exactRx, List.filter_cons, hq, if_true, List.map_cons,
          List.sum_cons]
        rw [Nat.add_mod_mod, Nat.mod_add_mod, Nat.add_assoc]
    · have hq : qualifies row = false := by simp [qualifies, hup]
      simp only [hup, ne_eq, not_false_eq_true, if_true]
      rw [ih (i + 1) ⟨s.rx, s.tx, s.trace ++ [Effect.ReadRow i]⟩ h]
      simp [exactRx, List.filter_cons, hq]

theorem scanRows_tx (rows : List MIB_IF_ROW2) (i : Nat) (s : Locals) (h : s.tx < 2 ^ 32) :
    (scanRows rows i s).tx = (s.tx + exactTx rows) % 2 ^ 32 := by
  induction rows generalizing i s with
  | nil =>
    simp only [scanRows, exactTx, List.filter_nil, List.map_nil, List.sum_nil, Nat.add_zero]
    exact (Nat.mod_eq_of_lt h).symm
  | cons row rest ih =>
    unfold scanRows
    by_cases hup : row.OperStatus = IfOperStatusUp
    · by_cases hlo : row.Type_ = IF_TYPE_SOFTWARE_LOOPBACK
      · have hq : qualifies row = false := by simp [qualifies, hlo]
        simp only [hup, hlo, ne_eq, not_true_eq_false, if_false, if_true]
        rw [ih (i + 1) ⟨s.rx, s.tx, s.trace ++ [Effect.ReadRow i]⟩ h]
        simp [exactTx, List.filter_cons, hq]
      · have hq : qualifies row = true := by simp [qualifies, hup, hlo]
        simp only [hup, hlo, ne_eq, not_true_eq_false, if_false]
        rw [ih _ _ (Nat.mod_lt _ (by norm_num))]
        simp only [addULONG, castULONG, exactTx, List.filter_cons, hq, if_true, List.map_cons,
          List.sum_cons]
        rw [Nat.add_mod_mod, Nat.mod_add_mod, Nat.add_assoc]
    · have hq : qualifies row = false := by simp [qualifies, hup]
      simp only [hup, ne_eq, not_false_eq_true, if_true]
      rw [ih (i + 1) ⟨s.rx, s.tx, s.trace ++ [Effect.ReadRow i]⟩ h]
      simp [exactTx, List.filter_cons, hq]

theorem scanRows_trace (rows : List MIB_IF_ROW2) (i : Nat) (s : Locals) :
    (scanRows rows i s).trace = s.trace ++ (List.range' i rows.length).map Effect.ReadRow := by
  induction rows generalizing i s with
  | nil => simp [scanRows]
  | cons row rest ih =>
    unfold scanRows
    by_cases hup : row.OperStatus = IfOperStatusUp
    · by_cases hlo : row.Type_ = IF_TYPE_SOFTWARE_LOOPBACK
      · simp only [hup, hlo, ne_eq, not_true_eq_false, if_false, if_true]
        rw [ih]
        simp [List.range'_succ]
      · simp only [hup, hlo, ne_eq, not_true_eq_false, if_false]
        rw [ih]
        simp [List.range'_succ]
    · simp only [hup, ne_eq, not_false_eq_true, if_true]
      rw [ih]
      simp [List.range'_succ]

theorem castInt64_of_lt (x : Nat) (h : x < 2 ^ 32) : castInt64 x = (x : Int) := by
  have h64 : x % 2 ^ 64 = x := Nat.mod_eq_of_lt (by omega)
  unfold castInt64
  rw [h64, if_pos (by omega)]

theorem resultMap_eq (rx tx : Nat) :
    EncodableValue.map (resultMap rx tx) = counterMap (castInt64 rx) (castInt64 tx) := rfl

theorem collect_enumerated_rx (t : MIB_IF_TABLE2) :
    (collect (enumerated t)).rx = exactRx t.Table % 2 ^ 32 := by
  simp [collect, enumerated, scanRows_rx]

theorem collect_enumerated_tx (t : MIB_IF_TABLE2) :
    (collect (enumerated t)).tx = exactTx t.Table % 2 ^ 32 := by
  simp [collect, enumerated, scanRows_tx]

theorem collect_enumerated_trace (t : MIB_IF_TABLE2) :
    (collect (enumerated t)).trace =
      Effect.GetIfTable2 :: (List.range t.NumEntries).map Effect.ReadRow ++
        [Effect.FreeMibTable] := by
  simp [collect, enumerated, scanRows_trace, MIB_IF_TABLE2.NumEntries, List.range_eq_range']

theorem collect_failed (os : GetIfTable2Result) (h : os.status ≠ NO_ERROR ∨ os.table = none) :
    collect os = { rx := 0, tx := 0, trace := [Effect.GetIfTable2] } := by
  unfold collect
  rcases h with h | h
  · simp [h]
  · simp [h]

theorem filter_isReply_readRows (l : List Nat) :
    (l.map Effect.ReadRow).filter Effect.isReply = [] := by
  induction l with
  | nil => rfl
  | cons a l ih => simp [List.filter_cons, Effect.isReply, ih]

theorem collect_rx_lt (os : GetIfTable2Result) : (collect os).rx < 2 ^ 32 := by
  unfold collect
  split
  · split
    · simp only
      rw [scanRows_rx _ _ _ (by norm_num)]
      exact Nat.mod_lt _ (by norm_num)
    · norm_num
  · norm_num

theorem collect_tx_lt (os : GetIfTable2Result) : (collect os).tx < 2 ^ 32 := by
  unfold collect
  split
  · split
    · simp only
      rw [scanRows_tx _ _ _ (by norm_num)]
      exact Nat.mod_lt _ (by norm_num)
    · norm_num
  · norm_num

theorem replies_collect (os : GetIfTable2Result) :
    (collect os).trace.filter Effect.isReply = [] := by
  unfold collect
  split
  · split
    · simp [scanRows_trace, List.filter_append, filter_isReply_readRows, Effect.isReply]
    · simp [Effect.isReply]
  · simp [Effect.isReply]

/-- The answers to a `getNetworkBytes` call: one success map holding the converted locals. -/
theorem replies_getNetworkBytes (call : MethodCall) (os : GetIfTable2Result)
    (h : call.method_name = "getNetworkBytes") :
    replies (methodCallHandler call os) =
      [Effect.Success (counterMap ((collect os).rx : Int) ((collect os).tx : Int))] := by
  unfold methodCallHandler replies
  rw [if_pos h]
  simp only [List.filter_append, replies_collect, List.nil_append]
  rw [resultMap_eq, castInt64_of_lt _ (collect_rx_lt os), castInt64_of_lt _ (collect_tx_lt os)]
  simp [List.filter_cons, Effect.isReply]

theorem collect_some_rx (st : Nat) (t : MIB_IF_TABLE2) :
    (collect { status := st, table := some t }).rx =
      if st = NO_ERROR then exactRx t.Table % 2 ^ 32 else 0 := by
  by_cases h : st = NO_ERROR
  · simp [collect, h, scanRows_rx]
  · simp [collect, h]

theorem collect_some_tx (st : Nat) (t : MIB_IF_TABLE2) :
    (collect { status := st, table := some t }).tx =
      if st = NO_ERROR then exactTx t.Table % 2 ^ 32 else 0 := by
  by_cases h : st = NO_ERROR
  · simp [collect, h, scanRows_tx]
  · simp [collect, h]

/-- The answers depend on a returned table only through its qualifying rows. -/
theorem replies_congr_filter (call : MethodCall) (st : Nat) (t1 t2 : MIB_IF_TABLE2)
    (h : t1.Table.filter qualifies = t2.Table.filter qualifies) :
    replies (methodCallHandler call { status := st, table := some t1 }) =
      replies (methodCallHandler call { status := st, table := some t2 }) := by
  by_cases hn : call.method_name = "getNetworkBytes"
  · rw [replies_getNetworkBytes call _ hn, replies_getNetworkBytes call _ hn]
    simp only [collect_some_rx, collect_some_tx, exactRx, exactTx, h]
  · simp [methodCallHandler, hn]

theorem replyField_skip (key : String) (tr rest : List Effect)
    (h : tr.filter Effect.isReply = []) :
    replyField key (tr ++ rest) = replyField key rest := by
  induction tr with
  | nil => rfl
  | cons e tr ih =>
    cases e with
    | Success v => simp [List.filter_cons, Effect.isReply] at h
    | Error c m => simp [List.filter_cons, Effect.isReply] at h
    | NotImplemented => simp [List.filter_cons, Effect.isReply] at h
    | GetIfTable2 =>
      have h2 : tr.filter Effect.isReply = [] := by
        simpa [List.filter_cons, Effect.isReply] using h
      simpa [replyField] using ih h2
    | ReadRow i =>
      have h2 : tr.filter Effect.isReply = [] := by
        simpa [List.filter_cons, Effect.isReply] using h
      simpa [replyField] using ih h2
    | FreeMibTable =>
      have h2 : tr.filter Effect.isReply = [] := by
        simpa [List.filter_cons, Effect.isReply] using h
      simpa [replyField] using ih h2

theorem responseRx_eq (call : MethodCall) (os : GetIfTable2Result)
    (h : call.method_name = "getNetworkBytes") :
    responseRx call os = some ((collect os).rx : Int) := by
  unfold responseRx methodCallHandler
  rw [if_pos h]
  simp only []
  rw [replyField_skip _ _ _ (replies_collect os), resultMap_eq,
    castInt64_of_lt _ (collect_rx_lt os)]
  rfl

theorem responseTx_eq (call : MethodCall) (os : GetIfTable2Result)
    (h : call.method_name = "getNetworkBytes") :
    responseTx call os = some ((collect os).tx : Int) := by
  unfold responseTx methodCallHandler
  rw [if_pos h]
  simp only []
  rw [replyField_skip _ _ _ (replies_collect os), resultMap_eq,
    castInt64_of_lt _ (collect_tx_lt os)]
  rfl

theorem exactRx_le_of_noReset (l1 l2 : List MIB_IF_ROW2) (h : List.Forall₂ rowNoReset l1 l2) :
    exactRx l1 ≤ exactRx l2 := by
  induction h with
  | nil => exact Nat.le_refl _
  | @cons r1 r2 k1 k2 hr _ ih =>
    unfold rowNoReset at hr
    obtain ⟨h1, h2, h3, _⟩ := hr
    have hq : qualifies r1 = qualifies r2 := by simp [qualifies, h1, h2]
    cases hq2 : qualifies r2 with
    | true =>
      rw [hq2] at hq
      simp only [exactRx, List.filter_cons, hq, hq2, if_true, List.map_cons, List.sum_cons]
      exact Nat.add_le_add h3 ih
    | false =>
      rw [hq2] at hq
      simpa [exactRx, List.filter_cons, hq, hq2] using ih

theorem exactTx_le_of_noReset (l1 l2 : List MIB_IF_ROW2) (h : List.Forall₂ rowNoReset l1 l2) :
    exactTx l1 ≤ exactTx l2 := by
  induction h with
  | nil => exact Nat.le_refl _
  | @cons r1 r2 k1 k2 hr _ ih =>
    unfold rowNoReset at hr
    obtain ⟨h1, h2, _, h4⟩ := hr
    have hq : qualifies r1 = qualifies r2 := by simp [qualifies, h1, h2]
    cases hq2 : qualifies r2 with
    | true =>
      rw [hq2] at hq
      simp only [exactTx, List.filter_cons, hq, hq2, if_true, List.map_cons, List.sum_cons]
      exact Nat.add_le_add h4 ih
    | false =>
      rw [hq2] at hq
      simpa [exactTx, List.filter_cons, hq, hq2] using ih

theorem mod_le_mod_of_same_window (a b : Nat) (hle : a ≤ b)
    (hwin : a / 2 ^ 32 = b / 2 ^ 32) : a % 2 ^ 32 ≤ b % 2 ^ 32 := by
  have ha := Nat.div_add_mod a (2 ^ 32)
  have hb := Nat.div_add_mod b (2 ^ 32)
  rw [hwin] at ha
  omega

/-- Within a sequence, an invocation performs the effects of the handler run on its own,
whatever storage it finds. -/
theorem invoke_effects (frame : Frame) (call : MethodCall) (os : GetIfTable2Result) :
    (invoke frame call os).2 = methodCallHandler call os := by
  unfold invoke methodCallHandler collect
  by_cases hn : call.method_name = "getNetworkBytes"
  · simp only [if_pos hn]
  · simp only [if_neg hn]

theorem serve_eq_map (frame : Frame) (calls : List (MethodCall × GetIfTable2Result)) :
    serve frame calls = calls.map (fun p => methodCallHandler p.1 p.2) := by
  induction calls generalizing frame with
  | nil => rfl
  | cons p rest ih =>
    obtain ⟨call, os⟩ := p
    simp only [serve, List.map_cons, invoke_effects, ih]

/-! ## The claims -/

/-- C1 (as stated, refuted): `wrapTable` has a qualifying row with counters below `2 ^ 64`, the
exact sums are `2 ^ 32` and `2 ^ 32 + 5`, yet the answer is `{rx: 0, tx: 5}` and not the map of
the exact sums. -/
theorem getNetworkBytes_exact_sum_fails :
    (∃ r ∈ wrapTable.Table, qualifies r = true) ∧
    (∀ r ∈ wrapTable.Table, r.InOctets < 2 ^ 64 ∧ r.OutOctets < 2 ^ 64) ∧
    exactRx wrapTable.Table = 4294967296 ∧ exactTx wrapTable.Table = 4294967301 ∧
    replies (methodCallHandler getNetworkBytesCall (enumerated wrapTable)) =
      [Effect.Success (counterMap 0 5)] ∧
    replies (methodCallHandler getNetworkBytesCall (enumerated wrapTable)) ≠
      [Effect.Success (counterMap (exactRx wrapTable.Table) (exactTx wrapTable.Table))] := by
  have hev : replies (methodCallHandler getNetworkBytesCall (enumerated wrapTable)) =
      [Effect.Success (counterMap 0 5)] := rfl
  refine ⟨⟨_, List.mem_singleton.mpr rfl, rfl⟩, ?_, rfl, rfl, hev, ?_⟩
  · intro r hr
    rw [wrapTable, List.mem_singleton] at hr
    subst hr
    constructor <;> norm_num
  · rw [hev]
    have h1 : exactRx wrapTable.Table = 4294967296 := rfl
    rw [h1]
    simp [counterMap]

/-- C1 (amended): for every successfully returned table with at least one row that is up and
not a loopback, the answer to `getNetworkBytes` is the success map whose `rx` is the sum of
`InOctets` over exactly the qualifying rows reduced modulo `2 ^ 32` and whose `tx` is the sum of
`OutOctets` over the same rows reduced modulo `2 ^ 32`; when both sums are below `2 ^ 32` these
are the exact sums. -/
theorem getNetworkBytes_sum_of_qualifying (call : MethodCall) (t : MIB_IF_TABLE2)
    (hname : call.method_name = "getNetworkBytes")
    (_hq : ∃ r ∈ t.Table, qualifies r = true) :
    replies (methodCallHandler call (enumerated t)) =
      [Effect.Success (counterMap ((exactRx t.Table % 2 ^ 32 : Nat) : Int)
        ((exactTx t.Table % 2 ^ 32 : Nat) : Int))] ∧
    (exactRx t.Table < 2 ^ 32 → exactTx t.Table < 2 ^ 32 →
      replies (methodCallHandler call (enumerated t)) =
        [Effect.Success (counterMap (exactRx t.Table : Int) (exactTx t.Table : Int))]) := by
  have hmain := replies_getNetworkBytes call (enumerated t) hname
  rw [collect_enumerated_rx, collect_enumerated_tx] at hmain
  refine ⟨hmain, fun h1 h2 => ?_⟩
  rw [hmain, Nat.mod_eq_of_lt h1, Nat.mod_eq_of_lt h2]

/-- C1 (amended), at the example table of the specification: the answer is
`{rx: 1000, tx: 500}`. -/
theorem getNetworkBytes_sum_of_qualifying_witness :
    getNetworkBytesCall.method_name = "getNetworkBytes" ∧
    (∃ r ∈ exampleTable.Table, qualifies r = true) ∧
    exactRx exampleTable.Table < 2 ^ 32 ∧ exactTx exampleTable.Table < 2 ^ 32 ∧
    replies (methodCallHandler getNetworkBytesCall (enumerated exampleTable)) =
      [Effect.Success (counterMap 1000 500)] :=
  ⟨rfl, ⟨_, List.mem_cons_self _ _, rfl⟩, by decide, by decide,
    (getNetworkBytes_sum_of_qualifying getNetworkBytesCall exampleTable rfl
      ⟨_, List.mem_cons_self _ _, rfl⟩).2 (by decide) (by decide)⟩

/-- C2: for every successfully returned table, of any length, in which every row is not up or
is a software loopback, the answer to `getNetworkBytes` is the success map `{rx: 0, tx: 0}`,
whatever the counters of the rows are. -/
theorem getNetworkBytes_zero_of_no_qualifying (call : MethodCall) (t : MIB_IF_TABLE2)
    (hname : call.method_name = "getNetworkBytes")
    (hall : ∀ r ∈ t.Table,
      r.OperStatus ≠ IfOperStatusUp ∨ r.Type_ = IF_TYPE_SOFTWARE_LOOPBACK) :
    replies (methodCallHandler call (enumerated t)) = [Effect.Success (counterMap 0 0)] := by
  have hfil : t.Table.filter qualifies = [] := by
    rw [List.filter_eq_nil_iff]
    intro r hr
    rcases hall r hr with h | h
    · simp [qualifies, h]
    · simp [qualifies, h]
  have hmain := replies_getNetworkBytes call (enumerated t) hname
  rw [collect_enumerated_rx, collect_enumerated_tx] at hmain
  rw [hmain]
  simp [exactRx, exactTx, hfil]

/-- C2 at `idleTable`, whose rows carry non-zero counters. -/
theorem getNetworkBytes_zero_of_no_qualifying_witness :
    getNetworkBytesCall.method_name = "getNetworkBytes" ∧
    (∀ r ∈ idleTable.Table,
      r.OperStatus ≠ IfOperStatusUp ∨ r.Type_ = IF_TYPE_SOFTWARE_LOOPBACK) ∧
    replies (methodCallHandler getNetworkBytesCall (enumerated idleTable)) =
      [Effect.Success (counterMap 0 0)] :=
  ⟨rfl, by decide,
    getNetworkBytes_zero_of_no_qualifying getNetworkBytesCall idleTable rfl (by decide)⟩

/-- C3: when `GetIfTable2` returns a status other than `NO_ERROR`, or `NO_ERROR` with a null
table, a `getNetworkBytes` call performs exactly the enumeration request followed by the
`Success` answer `{rx: 0, tx: 0}`: no row is read, and neither `Error` nor `NotImplemented` is
answered. -/
theorem getNetworkBytes_failure_fallback (call : MethodCall) (os : GetIfTable2Result)
    (hname : call.method_name = "getNetworkBytes")
    (hfail : os.status ≠ NO_ERROR ∨ os.table = none) :
    methodCallHandler call os = [Effect.GetIfTable2, Effect.Success (counterMap 0 0)] := by
  unfold methodCallHandler
  rw [if_pos hname, collect_failed os hfail]
  rfl

/-- C3 at the status `ERROR_NOT_ENOUGH_MEMORY = 8` with a null table. -/
theorem getNetworkBytes_failure_fallback_witness :
    getNetworkBytesCall.method_name = "getNetworkBytes" ∧
    ((8 : Nat) ≠ NO_ERROR ∨ (none : Option MIB_IF_TABLE2) = none) ∧
    methodCallHandler getNetworkBytesCall { status := 8, table := none } =
      [Effect.GetIfTable2, Effect.Success (counterMap 0 0)] :=
  ⟨rfl, Or.inr rfl,
    getNetworkBytes_failure_fallback getNetworkBytesCall { status := 8, table := none } rfl
      (Or.inr rfl)⟩

/-- C4: a call whose method name is not exactly `"getNetworkBytes"` is answered by exactly one
`NotImplemented`, by no `Success` and no `Error`, and `GetIfTable2` is not called; a call
named `"getNetworkBytes"` is answered by exactly one `Success`, by no `NotImplemented` and no
`Error`. -/
theorem methodCallHandler_dispatch (call : MethodCall) (os : GetIfTable2Result) :
    (call.method_name ≠ "getNetworkBytes" →
      (methodCallHandler call os).countP Effect.isNotImplemented = 1 ∧
      (methodCallHandler call os).countP Effect.isSuccess = 0 ∧
      (methodCallHandler call os).countP Effect.isError = 0 ∧
      (methodCallHandler call os).countP Effect.isGetIfTable2 = 0 ∧
      methodCallHandler call os = [Effect.NotImplemented]) ∧
    (call.method_name = "getNetworkBytes" →
      (methodCallHandler call os).countP Effect.isSuccess = 1 ∧
      (methodCallHandler call os).countP Effect.isNotImplemented = 0 ∧
      (methodCallHandler call os).countP Effect.isError = 0 ∧
      (replies (methodCallHandler call os)).length = 1) := by
  constructor
  · intro h
    have hh : methodCallHandler call os = [Effect.NotImplemented] := by
      simp [methodCallHandler, h]
    rw [hh]
    exact ⟨rfl, rfl, rfl, rfl, rfl⟩
  · intro h
    have hr := replies_getNetworkBytes call os h
    have hc : ∀ p : Effect → Bool, (∀ e, p e = true → Effect.isReply e = true) →
        (methodCallHandler call os).countP p = (replies (methodCallHandler call os)).countP p := by
      intro p hp
      unfold replies
      rw [List.countP_filter]
      congr 1
      funext e
      cases hpe : p e with
      | false => simp
      | true => simp [hp e hpe]
    refine ⟨?_, ?_, ?_, ?_⟩
    · rw [hc _ (by intro e; cases e <;> simp [Effect.isSuccess, Effect.isReply]), hr]
      rfl
    · rw [hc _ (by intro e; cases e <;> simp [Effect.isNotImplemented, Effect.isReply]), hr]
      rfl
    · rw [hc _ (by intro e; cases e <;> simp [Effect.isError, Effect.isReply]), hr]
      rfl
    · rw [hr]
      rfl

/-- C4 at the name `"getnetworkbytes"` (wrong case) and at the name `"getNetworkBytes"`, with a
table available in both cases. -/
theorem methodCallHandler_dispatch_witness :
    ((methodCallHandler { method_name := "getnetworkbytes", arguments := EncodableValue.null }
        (enumerated exampleTable)).countP Effect.isNotImplemented = 1 ∧
      (methodCallHandler { method_name := "getnetworkbytes", arguments := EncodableValue.null }
        (enumerated exampleTable)).countP Effect.isGetIfTable2 = 0) ∧
    ((methodCallHandler getNetworkBytesCall (enumerated exampleTable)).countP
        Effect.isSuccess = 1 ∧
      (methodCallHandler getNetworkBytesCall (enumerated exampleTable)).countP
        Effect.isNotImplemented = 0) :=
  ⟨⟨((methodCallHandler_dispatch
        { method_name := "getnetworkbytes", arguments := EncodableValue.null }
        (enumerated exampleTable)).1 (by decide)).1,
    ((methodCallHandler_dispatch
        { method_name := "getnetworkbytes", arguments := EncodableValue.null }
        (enumerated exampleTable)).1 (by decide)).2.2.2.1⟩,
   ⟨((methodCallHandler_dispatch getNetworkBytesCall (enumerated exampleTable)).2 rfl).1,
    ((methodCallHandler_dispatch getNetworkBytesCall (enumerated exampleTable)).2 rfl).2.1⟩⟩

/-- C5 (as stated, refuted): `beforeWrapTable` and `afterWrapTable` have one row each with the
same status and type and no counter went down, yet `rx` falls from `2 ^ 32 - 1` to `0`. -/
theorem getNetworkBytes_monotone_fails :
    noReset beforeWrapTable afterWrapTable ∧
    responseRx getNetworkBytesCall (enumerated beforeWrapTable) = some 4294967295 ∧
    responseRx getNetworkBytesCall (enumerated afterWrapTable) = some 0 ∧
    ¬ ∃ a1 a2 : Int,
      responseRx getNetworkBytesCall (enumerated beforeWrapTable) = some a1 ∧
      responseRx getNetworkBytesCall (enumerated afterWrapTable) = some a2 ∧ a1 ≤ a2 := by
  have h1 : responseRx getNetworkBytesCall (enumerated beforeWrapTable) = some 4294967295 := by
    decide
  have h2 : responseRx getNetworkBytesCall (enumerated afterWrapTable) = some 0 := by decide
  refine ⟨?_, h1, h2, ?_⟩
  · exact List.Forall₂.cons ⟨rfl, rfl, by decide, by decide⟩ List.Forall₂.nil
  · rintro ⟨a1, a2, e1, e2, hle⟩
    rw [h1] at e1
    rw [h2] at e2
    injection e1 with e1
    injection e2 with e2
    subst e1
    subst e2
    exact absurd hle (by decide)

/-- C5 (amended): for two successfully returned tables of the same length whose corresponding
rows agree in status and type and whose counters did not go down, the `rx` answered for the
second is at least the `rx` answered for the first whenever the 32-bit accumulator did not
wrap between the two calls, that is, whenever the sums of `InOctets` over the qualifying rows
of the two tables have the same quotient by `2 ^ 32`; likewise for `tx` and `OutOctets`. -/
theorem getNetworkBytes_monotone_same_window (call : MethodCall) (t1 t2 : MIB_IF_TABLE2)
    (hname : call.method_name = "getNetworkBytes") (hadv : noReset t1 t2) :
    (exactRx t1.Table / 2 ^ 32 = exactRx t2.Table / 2 ^ 32 →
      ∃ a1 a2 : Int, responseRx call (enumerated t1) = some a1 ∧
        responseRx call (enumerated t2) = some a2 ∧ a1 ≤ a2) ∧
    (exactTx t1.Table / 2 ^ 32 = exactTx t2.Table / 2 ^ 32 →
      ∃ b1 b2 : Int, responseTx call (enumerated t1) = some b1 ∧
        responseTx call (enumerated t2) = some b2 ∧ b1 ≤ b2) := by
  constructor
  · intro hwin
    have hle := exactRx_le_of_noReset _ _ hadv
    refine ⟨_, _, responseRx_eq call _ hname, responseRx_eq call _ hname, ?_⟩
    rw [collect_enumerated_rx, collect_enumerated_rx]
    exact_mod_cast mod_le_mod_of_same_window _ _ hle hwin
  · intro hwin
    have hle := exactTx_le_of_noReset _ _ hadv
    refine ⟨_, _, responseTx_eq call _ hname, responseTx_eq call _ hname, ?_⟩
    rw [collect_enumerated_tx, collect_enumerated_tx]
    exact_mod_cast mod_le_mod_of_same_window _ _ hle hwin

/-- C5 (amended) from `wrapTable` to `wrapTableLater`, both past the first `2 ^ 32` octets:
`rx` goes from `0` to `10` and `tx` from `5` to `9`. -/
theorem getNetworkBytes_monotone_same_window_witness :
    getNetworkBytesCall.method_name = "getNetworkBytes" ∧
    noReset wrapTable wrapTableLater ∧
    exactRx wrapTable.Table / 2 ^ 32 = exactRx wrapTableLater.Table / 2 ^ 32 ∧
    exactTx wrapTable.Table / 2 ^ 32 = exactTx wrapTableLater.Table / 2 ^ 32 ∧
    2 ^ 32 ≤ exactRx wrapTable.Table ∧ 2 ^ 32 ≤ exactTx wrapTable.Table ∧
    responseRx getNetworkBytesCall (enumerated wrapTable) = some 0 ∧
    responseRx getNetworkBytesCall (enumerated wrapTableLater) = some 10 ∧
    responseTx getNetworkBytesCall (enumerated wrapTable) = some 5 ∧
    responseTx getNetworkBytesCall (enumerated wrapTableLater) = some 9 ∧
    (∃ a1 a2 : Int, responseRx getNetworkBytesCall (enumerated wrapTable) = some a1 ∧
      responseRx getNetworkBytesCall (enumerated wrapTableLater) = some a2 ∧ a1 ≤ a2) ∧
    (∃ b1 b2 : Int, responseTx getNetworkBytesCall (enumerated wrapTable) = some b1 ∧
      responseTx getNetworkBytesCall (enumerated wrapTableLater) = some b2 ∧ b1 ≤ b2) :=
  have hadv : noReset wrapTable wrapTableLater :=
    List.Forall₂.cons ⟨rfl, rfl, by decide, by decide⟩ List.Forall₂.nil
  ⟨rfl, hadv, by decide, by decide, by decide, by decide, by decide, by decide, by decide,
    by decide,
    (getNetworkBytes_monotone_same_window getNetworkBytesCall wrapTable wrapTableLater
      rfl hadv).1 (by decide),
    (getNetworkBytes_monotone_same_window getNetworkBytesCall wrapTable wrapTableLater
      rfl hadv).2 (by decide)⟩

/-- C6: for every `getNetworkBytes` call, whatever `GetIfTable2` does, the single answer is
a `Success` map with exactly the two string keys `"rx"` and `"tx"`, each holding a 64-bit
signed integer, namely the `int64_t` conversion of the local `rx` (resp. `tx`), and both
integers lie between `0` and `2 ^ 63 - 1`. -/
theorem getNetworkBytes_reply_shape (call : MethodCall) (os : GetIfTable2Result)
    (hname : call.method_name = "getNetworkBytes") :
    ∃ a b : Int,
      replies (methodCallHandler call os) =
        [Effect.Success (EncodableValue.map
          [(EncodableValue.string "rx", EncodableValue.int64 a),
           (EncodableValue.string "tx", EncodableValue.int64 b)])] ∧
      a = castInt64 (collect os).rx ∧ b = castInt64 (collect os).tx ∧
      0 ≤ a ∧ a ≤ 2 ^ 63 - 1 ∧ 0 ≤ b ∧ b ≤ 2 ^ 63 - 1 := by
  have hrx := collect_rx_lt os
  have htx := collect_tx_lt os
  refine ⟨castInt64 (collect os).rx, castInt64 (collect os).tx, ?_, rfl, rfl, ?_⟩
  · rw [replies_getNetworkBytes call os hname, castInt64_of_lt _ hrx, castInt64_of_lt _ htx]
    rfl
  · rw [castInt64_of_lt _ hrx, castInt64_of_lt _ htx]
    omega

/-- C6 at `wrapTable`, whose counters exceed 32 bits. -/
theorem getNetworkBytes_reply_shape_witness :
    getNetworkBytesCall.method_name = "getNetworkBytes" ∧
    ∃ a b : Int,
      replies (methodCallHandler getNetworkBytesCall (enumerated wrapTable)) =
        [Effect.Success (EncodableValue.map
          [(EncodableValue.string "rx", EncodableValue.int64 a),
           (EncodableValue.string "tx", EncodableValue.int64 b)])] ∧
      a = castInt64 (collect (enumerated wrapTable)).rx ∧
      b = castInt64 (collect (enumerated wrapTable)).tx ∧
      0 ≤ a ∧ a ≤ 2 ^ 63 - 1 ∧ 0 ≤ b ∧ b ≤ 2 ^ 63 - 1 :=
  ⟨rfl, getNetworkBytes_reply_shape getNetworkBytesCall (enumerated wrapTable) rfl⟩

/-- C7: for every call and every returned table, the answers are those for the table from
which every row that is not up or is a software loopback has been deleted; and inserting such
a row anywhere, with any counters, leaves the answers unchanged. -/
theorem getNetworkBytes_ignores_non_qualifying (call : MethodCall) (t : MIB_IF_TABLE2) :
    replies (methodCallHandler call (enumerated t)) =
      replies (methodCallHandler call (enumerated { Table := t.Table.filter qualifies })) ∧
    ∀ (front back : List MIB_IF_ROW2) (r : MIB_IF_ROW2),
      t.Table = front ++ back →
      (r.OperStatus ≠ IfOperStatusUp ∨ r.Type_ = IF_TYPE_SOFTWARE_LOOPBACK) →
      replies (methodCallHandler call (enumerated { Table := front ++ r :: back })) =
        replies (methodCallHandler call (enumerated t)) := by
  constructor
  · exact replies_congr_filter call NO_ERROR t _ (by simp [List.filter_filter])
  · intro front back r ht hr
    apply replies_congr_filter call NO_ERROR
    have hq : qualifies r = false := by
      rcases hr with h | h
      · simp [qualifies, h]
      · simp [qualifies, h]
    simp [ht, List.filter_append, List.filter_cons, hq]

/-- C7 at the example table: a loopback row with large counters inserted after the first row
does not change the answer. -/
theorem getNetworkBytes_ignores_non_qualifying_witness :
    exampleTable.Table = [{ OperStatus := 1, Type_ := 6, InOctets := 1000, OutOctets := 500 }] ++
      [{ OperStatus := 1, Type_ := 24, InOctets := 50, OutOctets := 50 },
       { OperStatus := 2, Type_ := 6, InOctets := 900, OutOctets := 900 }] ∧
    ((1 : Nat) ≠ IfOperStatusUp ∨ (24 : Nat) = IF_TYPE_SOFTWARE_LOOPBACK) ∧
    replies (methodCallHandler getNetworkBytesCall (enumerated
      { Table := [{ OperStatus := 1, Type_ := 6, InOctets := 1000, OutOctets := 500 }] ++
        { OperStatus := 1, Type_ := 24, InOctets := 123456789012, OutOctets := 77 } ::
        [{ OperStatus := 1, Type_ := 24, InOctets := 50, OutOctets := 50 },
         { OperStatus := 2, Type_ := 6, InOctets := 900, OutOctets := 900 }] })) =
      replies (methodCallHandler getNetworkBytesCall (enumerated exampleTable)) :=
  ⟨rfl, Or.inr rfl,
    (getNetworkBytes_ignores_non_qualifying getNetworkBytesCall exampleTable).2
      [{ OperStatus := 1, Type_ := 6, InOctets := 1000, OutOctets := 500 }]
      [{ OperStatus := 1, Type_ := 24, InOctets := 50, OutOctets := 50 },
       { OperStatus := 2, Type_ := 6, InOctets := 900, OutOctets := 900 }]
      { OperStatus := 1, Type_ := 24, InOctets := 123456789012, OutOctets := 77 }
      rfl (Or.inr rfl)⟩

/-- C8: the effects and the answer of a `getNetworkBytes` invocation are a function of the
enumeration outcome alone. Take two sequences of invocations with any earlier calls, any
enumeration outcomes during those, and any storage found at the start; if both end with a call
named `"getNetworkBytes"`, with any arguments, that observes the same enumeration status and
table, then the two final invocations perform the same effects and give the same answer,
namely those of the handler run on its own: nothing is carried over from earlier calls. -/
theorem getNetworkBytes_depends_on_enumeration_only
    (f1 f2 : Frame) (past1 past2 : List (MethodCall × GetIfTable2Result))
    (c1 c2 : MethodCall) (os : GetIfTable2Result)
    (h1 : c1.method_name = "getNetworkBytes") (h2 : c2.method_name = "getNetworkBytes") :
    (serve f1 (past1 ++ [(c1, os)])).getLast? = (serve f2 (past2 ++ [(c2, os)])).getLast? ∧
    (serve f1 (past1 ++ [(c1, os)])).getLast? = some (methodCallHandler c1 os) ∧
    (serve f1 (past1 ++ [(c1, os)])).length = past1.length + 1 ∧
    methodCallHandler c1 os = methodCallHandler c2 os ∧
    replies (methodCallHandler c1 os) = replies (methodCallHandler c2 os) := by
  have h : methodCallHandler c1 os = methodCallHandler c2 os := by
    unfold methodCallHandler
    rw [if_pos h1, if_pos h2]
  have hlast : ∀ (f : Frame) (past : List (MethodCall × GetIfTable2Result)) (c : MethodCall),
      (serve f (past ++ [(c, os)])).getLast? = some (methodCallHandler c os) := by
    intro f past c
    rw [serve_eq_map, List.map_append, List.map_cons, List.map_nil, List.getLast?_append]
    rfl
  refine ⟨?_, hlast f1 past1 c1, ?_, h, by rw [h]⟩
  · rw [hlast f1 past1 c1, hlast f2 past2 c2, h]
  · rw [serve_eq_map]
    simp

/-- C8 for a first call without arguments on fresh storage and, in another sequence, a call
carrying a map argument that comes after a query of `wrapTable`, an unknown method and a query
of `twoWrapTable`, on storage holding `7` and `9`: both answer `{rx: 1000, tx: 500}`. -/
theorem getNetworkBytes_depends_on_enumeration_only_witness :
    getNetworkBytesCall.method_name = "getNetworkBytes" ∧
    (MethodCall.mk "getNetworkBytes" (counterMap 7 9)).method_name = "getNetworkBytes" ∧
    (serve { rx := 0, tx := 0 }
        ([] ++ [(getNetworkBytesCall, enumerated exampleTable)])).getLast? =
      (serve { rx := 7, tx := 9 }
        ([(getNetworkBytesCall, enumerated wrapTable),
          (MethodCall.mk "reset" EncodableValue.null, enumerated idleTable),
          (getNetworkBytesCall, enumerated twoWrapTable)] ++
          [(MethodCall.mk "getNetworkBytes" (counterMap 7 9),
            enumerated exampleTable)])).getLast? ∧
    replies (methodCallHandler getNetworkBytesCall (enumerated exampleTable)) =
      [Effect.Success (counterMap 1000 500)] :=
  ⟨rfl, rfl,
    (getNetworkBytes_depends_on_enumeration_only { rx := 0, tx := 0 } { rx := 7, tx := 9 } []
      [(getNetworkBytesCall, enumerated wrapTable),
        (MethodCall.mk "reset" EncodableValue.null, enumerated idleTable),
        (getNetworkBytesCall, enumerated twoWrapTable)]
      getNetworkBytesCall (MethodCall.mk "getNetworkBytes" (counterMap 7 9))
      (enumerated exampleTable) rfl rfl).1,
    rfl⟩

/-- C9: every `getNetworkBytes` call performs `GetIfTable2` exactly once. When the call
returned `NO_ERROR` and a table, the effects are, in this order: the request, one read of each
row `0 .. NumEntries - 1`, one `FreeMibTable`, and the `Success` answer, so the table is
released exactly once, after the last read and before the answer. On the other path (a status
other than `NO_ERROR`, or a null table) the effects are the request and the `Success` answer:
nothing is read and nothing is released. -/
theorem getNetworkBytes_table_lifetime (call : MethodCall) (os : GetIfTable2Result)
    (hname : call.method_name = "getNetworkBytes") :
    (methodCallHandler call os).countP Effect.isGetIfTable2 = 1 ∧
    (∀ t, os.status = NO_ERROR → os.table = some t →
      (methodCallHandler call os).countP Effect.isFreeMibTable = 1 ∧
      ∃ v, methodCallHandler call os =
        Effect.GetIfTable2 :: (List.range t.NumEntries).map Effect.ReadRow ++
          [Effect.FreeMibTable, Effect.Success v]) ∧
    ((os.status ≠ NO_ERROR ∨ os.table = none) →
      (methodCallHandler call os).countP Effect.isFreeMibTable = 0 ∧
      (methodCallHandler call os).countP Effect.isReadRow = 0 ∧
      ∃ v, methodCallHandler call os = [Effect.GetIfTable2, Effect.Success v]) := by
  have hcount : ∀ (p : Effect → Bool) (l : List Nat), (∀ i, p (Effect.ReadRow i) = false) →
      (l.map Effect.ReadRow).countP p = 0 := by
    intro p l hp
    induction l with
    | nil => rfl
    | cons a l ih => simp [List.countP_cons, ih, hp a]
  have hsucc : ∀ t, os.status = NO_ERROR → os.table = some t →
      methodCallHandler call os =
        Effect.GetIfTable2 :: (List.range t.NumEntries).map Effect.ReadRow ++
          [Effect.FreeMibTable,
            Effect.Success (EncodableValue.map (resultMap (collect os).rx (collect os).tx))] := by
    intro t hs ht
    have hos : os = enumerated t := by
      cases os
      simp only [enumerated] at hs ht ⊢
      subst hs
      subst ht
      rfl
    unfold methodCallHandler
    rw [if_pos hname]
    simp only []
    rw [hos, collect_enumerated_trace]
    simp
  have hfail : (os.status ≠ NO_ERROR ∨ os.table = none) →
      methodCallHandler call os =
        [Effect.GetIfTable2,
          Effect.Success (EncodableValue.map (resultMap (collect os).rx (collect os).tx))] := by
    intro hf
    unfold methodCallHandler
    rw [if_pos hname]
    simp only []
    rw [collect_failed os hf]
    rfl
  refine ⟨?_, ?_, ?_⟩
  · by_cases hs : os.status = NO_ERROR
    · cases ht : os.table with
      | none =>
        rw [hfail (Or.inr ht)]
        rfl
      | some t =>
        rw [hsucc t hs ht]
        simp [List.countP_cons, List.countP_append, Effect.isGetIfTable2,
          hcount Effect.isGetIfTable2 _ (fun _ => rfl)]
    · rw [hfail (Or.inl hs)]
      rfl
  · intro t hs ht
    refine ⟨?_, _, hsucc t hs ht⟩
    rw [hsucc t hs ht]
    simp [List.countP_cons, List.countP_append, Effect.isFreeMibTable,
      hcount Effect.isFreeMibTable _ (fun _ => rfl)]
  · intro hf
    refine ⟨?_, ?_, _, hfail hf⟩
    · rw [hfail hf]
      rfl
    · rw [hfail hf]
      rfl

/-- C9 at the example table (request, three reads, release, answer) and at a failed
enumeration with status `ERROR_NOT_ENOUGH_MEMORY = 8` (request, answer). -/
theorem getNetworkBytes_table_lifetime_witness :
    getNetworkBytesCall.method_name = "getNetworkBytes" ∧
    (enumerated exampleTable).status = NO_ERROR ∧
    (enumerated exampleTable).table = some exampleTable ∧
    (methodCallHandler getNetworkBytesCall (enumerated exampleTable)).countP
      Effect.isGetIfTable2 = 1 ∧
    (methodCallHandler getNetworkBytesCall (enumerated exampleTable)).countP
      Effect.isFreeMibTable = 1 ∧
    (∃ v, methodCallHandler getNetworkBytesCall (enumerated exampleTable) =
      Effect.GetIfTable2 :: (List.range exampleTable.NumEntries).map Effect.ReadRow ++
        [Effect.FreeMibTable, Effect.Success v]) ∧
    ((8 : Nat) ≠ NO_ERROR ∨ (none : Option MIB_IF_TABLE2) = none) ∧
    (methodCallHandler getNetworkBytesCall { status := 8, table := none }).countP
      Effect.isFreeMibTable = 0 :=
  ⟨rfl, rfl, rfl,
    (getNetworkBytes_table_lifetime getNetworkBytesCall (enumerated exampleTable) rfl).1,
    ((getNetworkBytes_table_lifetime getNetworkBytesCall (enumerated exampleTable) rfl).2.1
      exampleTable rfl rfl).1,
    ((getNetworkBytes_table_lifetime getNetworkBytesCall (enumerated exampleTable) rfl).2.1
      exampleTable rfl rfl).2,
    Or.inr rfl,
    ((getNetworkBytes_table_lifetime getNetworkBytesCall { status := 8, table := none } rfl).2.2
      (Or.inr rfl)).1⟩

/-- C10: for every successfully returned table, the `rx` (resp. `tx`) answered to
`getNetworkBytes`, obtained by truncating the counter of each qualifying row to 32 bits and
adding it to a 32-bit variable, is the exact sum of `InOctets` (resp. `OutOctets`) over the rows that
are up and not loopback, reduced modulo `2 ^ 32`. The answered values are below `2 ^ 32`, and
each equals its exact sum if and only if that sum is below `2 ^ 32`. -/
theorem getNetworkBytes_sum_mod_two_pow_32 (call : MethodCall) (t : MIB_IF_TABLE2)
    (hname : call.method_name = "getNetworkBytes") :
    responseRx call (enumerated t) = some ((exactRx t.Table % 2 ^ 32 : Nat) : Int) ∧
    responseTx call (enumerated t) = some ((exactTx t.Table % 2 ^ 32 : Nat) : Int) ∧
    (∀ a, responseRx call (enumerated t) = some a → 0 ≤ a ∧ a < 2 ^ 32) ∧
    (∀ b, responseTx call (enumerated t) = some b → 0 ≤ b ∧ b < 2 ^ 32) ∧
    (responseRx call (enumerated t) = some (exactRx t.Table : Int) ↔ exactRx t.Table < 2 ^ 32) ∧
    (responseTx call (enumerated t) = some (exactTx t.Table : Int) ↔
      exactTx t.Table < 2 ^ 32) := by
  have hrx : responseRx call (enumerated t) = some ((exactRx t.Table % 2 ^ 32 : Nat) : Int) := by
    rw [responseRx_eq call _ hname, collect_enumerated_rx]
  have htx : responseTx call (enumerated t) = some ((exactTx t.Table % 2 ^ 32 : Nat) : Int) := by
    rw [responseTx_eq call _ hname, collect_enumerated_tx]
  have hiff : ∀ n : Nat, (some ((n % 2 ^ 32 : Nat) : Int) = some (n : Int) ↔ n < 2 ^ 32) := by
    intro n
    constructor
    · intro h
      injection h with h
      have h2 : n % 2 ^ 32 = n := by exact_mod_cast h
      have h3 : n % 2 ^ 32 < 2 ^ 32 := Nat.mod_lt _ (by norm_num)
      omega
    · intro h
      rw [Nat.mod_eq_of_lt h]
  have hbound : ∀ (n : Nat) (a : Int), some ((n % 2 ^ 32 : Nat) : Int) = some a →
      0 ≤ a ∧ a < 2 ^ 32 := by
    intro n a h
    injection h with h
    have h3 : n % 2 ^ 32 < 2 ^ 32 := Nat.mod_lt _ (by norm_num)
    subst h
    constructor
    · exact Int.natCast_nonneg _
    · exact_mod_cast h3
  refine ⟨hrx, htx, ?_, ?_, ?_, ?_⟩
  · intro a ha
    rw [hrx] at ha
    exact hbound _ _ ha
  · intro b hb
    rw [htx] at hb
    exact hbound _ _ hb
  · rw [hrx]
    exact hiff _
  · rw [htx]
    exact hiff _

/-- C10 at a table with two qualifying rows whose truncated counters wrap the 32-bit
accumulator: the sums are `2 ^ 33 + 2` and `2 ^ 32 - 1`, the answers `2` and `2 ^ 32 - 1`. -/
theorem getNetworkBytes_sum_mod_two_pow_32_witness :
    getNetworkBytesCall.method_name = "getNetworkBytes" ∧
    exactRx twoWrapTable.Table = 8589934594 ∧ exactTx twoWrapTable.Table = 4294967295 ∧
    responseRx getNetworkBytesCall (enumerated twoWrapTable) = some 2 ∧
    responseTx getNetworkBytesCall (enumerated twoWrapTable) = some 4294967295 ∧
    ¬ responseRx getNetworkBytesCall (enumerated twoWrapTable) =
      some (exactRx twoWrapTable.Table : Int) ∧
    responseTx getNetworkBytesCall (enumerated twoWrapTable) =
      some (exactTx twoWrapTable.Table : Int) :=
  ⟨rfl, by decide, by decide,
    (getNetworkBytes_sum_mod_two_pow_32 getNetworkBytesCall twoWrapTable rfl).1,
    (getNetworkBytes_sum_mod_two_pow_32 getNetworkBytesCall twoWrapTable rfl).2.1,
    fun h => absurd
      ((getNetworkBytes_sum_mod_two_pow_32 getNetworkBytesCall twoWrapTable rfl).2.2.2.2.1.mp h)
      (by decide),
    (getNetworkBytes_sum_mod_two_pow_32 getNetworkBytesCall twoWrapTable rfl).2.2.2.2.2.mpr
      (by decide)⟩

end FlutterWindow
